import Mathlib

/-!
Verification of the resume-tailoring pipeline of the generate-resume API route
(`app/login/page.tsx`, third document: the `/api/generate-resume` handler).

Text is modelled as `List Char`; JavaScript string operations are embedded as
executable functions on character lists.  JavaScript's `toLowerCase`/`toUpperCase`
are modelled by the ASCII case maps `Char.toLower`/`Char.toUpper` (all string
literals in the program are ASCII).  `Math.round` on the nonnegative rational
`100 * matched / total` is modelled exactly as round-half-up on rationals.
The external summarization model is an opaque fallible collaborator; it enters
the embedding of the `POST` handler as an explicit outcome parameter
(`Except Unit Str`): `.ok t` for a call returning extracted text `t`
(the empty string when the output array is malformed), `.error ()` for a call
that throws.  The response `timestamp` field (wall clock) is omitted.
-/

/-- Text is a list of characters. -/
abbrev Str := List Char

/-- Coerce a Lean string literal to the character-list representation. -/
def str (s : String) : Str := s.data

/-- JavaScript whitespace class `\s` (ASCII part): space, tab, LF, VT, FF, CR. -/
def isWS (c : Char) : Bool :=
  c = ' ' || c = '\t' || c = '\n' || c = '\r' || c.toNat = 11 || c.toNat = 12

/-- JavaScript word-character class `\w` = `[A-Za-z0-9_]`. -/
def isWordChar (c : Char) : Bool :=
  (48 ≤ c.toNat && c.toNat ≤ 57) || (65 ≤ c.toNat && c.toNat ≤ 90) ||
  (97 ≤ c.toNat && c.toNat ≤ 122) || c.toNat = 95

/-- ASCII lowercase letter `[a-z]`. -/
def isLowerAZ (c : Char) : Bool := 97 ≤ c.toNat && c.toNat ≤ 122

/-- ASCII uppercase letter `[A-Z]`. -/
def isUpperAZ (c : Char) : Bool := 65 ≤ c.toNat && c.toNat ≤ 90

/-- ASCII letter `[a-zA-Z]`. -/
def isAlphaAZ (c : Char) : Bool := isLowerAZ c || isUpperAZ c

/-- Lowercase a text, character by character (model of `String.prototype.toLowerCase`). -/
def lowerStr (s : Str) : Str := s.map Char.toLower

/-- Strip leading whitespace (one half of `String.prototype.trim`). -/
def trimStart (s : Str) : Str := s.dropWhile isWS

/-- Strip trailing whitespace (the other half of `String.prototype.trim`). -/
def trimEnd (s : Str) : Str := (s.reverse.dropWhile isWS).reverse

/-- Model of `String.prototype.trim`. -/
def trimL (s : Str) : Str := trimEnd (trimStart s)

/-- Model of `String.prototype.split("\n")`. -/
def splitNL : Str → List Str
  | [] => [[]]
  | c :: cs =>
    if c = '\n' then [] :: splitNL cs
    else
      match splitNL cs with
      | [] => [[c]]
      | h :: t => (c :: h) :: t

/-- Model of `Array.prototype.join("\n")`. -/
def joinNL : List Str → Str
  | [] => []
  | [l] => l
  | l :: ls => l ++ '\n' :: joinNL ls

/-- Does `pat` occur as a contiguous substring of `s`?
Model of `String.prototype.includes(pat)`. -/
def containsSub (pat : Str) : Str → Bool
  | [] => pat.isEmpty
  | c :: cs => pat.isPrefixOf (c :: cs) || containsSub pat cs

/-- Model of `String.prototype.startsWith(pat)`. -/
def startsWithL (pat s : Str) : Bool := pat.isPrefixOf s

/-- Replace the first occurrence of the literal `pat` by `repl`
(model of `String.prototype.replace` with a string pattern). -/
def replaceFirst (pat repl : Str) : Str → Str
  | [] => []
  | c :: cs =>
    if pat.isPrefixOf (c :: cs) then repl ++ (c :: cs).drop pat.length
    else c :: replaceFirst pat repl cs

/-- Worker for `replaceAll`, structurally recursive on a fuel argument so that
it evaluates inside the kernel.  Every step consumes at least one character of
the text (the patterns used by the program are nonempty), so fuel equal to the
text length never runs out. -/
def replaceAllF (ci : Bool) (pat repl : Str) : Nat → Str → Str
  | _, [] => []
  | 0, s => s
  | fuel + 1, c :: cs =>
    if !pat.isEmpty && pat.isPrefixOf (if ci then lowerStr (c :: cs) else c :: cs) then
      repl ++ replaceAllF ci pat repl fuel ((c :: cs).drop pat.length)
    else
      c :: replaceAllF ci pat repl fuel cs

/-- Replace every (non-overlapping, left-to-right) occurrence of `pat` by `repl`;
when `ci` is true the match is case-insensitive with an all-lowercase `pat`
(model of `String.prototype.replace` with a `/…/g` or `/…/gi` regex on a
literal pattern).  Scanning resumes after the matched portion of the input;
replacement text is not rescanned. -/
def replaceAll (ci : Bool) (pat repl s : Str) : Str :=
  replaceAllF ci pat repl s.length s

/-- Worker for `collapseWS` (fuel-based structural recursion, fuel never runs
out for fuel = text length). -/
def collapseWSF : Nat → Str → Str
  | _, [] => []
  | 0, s => s
  | fuel + 1, c :: cs =>
    if isWS c then ' ' :: collapseWSF fuel (cs.dropWhile isWS)
    else c :: collapseWSF fuel cs

/-- Collapse each whitespace run to a single space
(model of `.replace(/\s+/g, " ")`). -/
def collapseWS (s : Str) : Str := collapseWSF s.length s

/-- Worker for `collapseDots` (fuel-based structural recursion, fuel never
runs out for fuel = text length). -/
def collapseDotsF : Nat → Str → Str
  | _, [] => []
  | 0, s => s
  | fuel + 1, c :: cs =>
    if c = '.' then
      match cs.dropWhile isWS with
      | '.' :: rest2 => '.' :: collapseDotsF fuel rest2
      | _ => c :: collapseDotsF fuel cs
    else c :: collapseDotsF fuel cs

/-- Collapse `". <whitespace> ."` to `"."`, left to right
(model of `.replace(/\.\s*\./g, ".")`; the regex matches a dot, a maximal
whitespace run, and a second dot; scanning resumes after the match). -/
def collapseDots (s : Str) : Str := collapseDotsF s.length s

/-- Is there a run of `n` consecutive characters all satisfying `p`?
Model of `/[class]{n,}/.test(s)` for a character-class regex. -/
def hasRun (p : Char → Bool) (n : Nat) (s : Str) : Bool :=
  s.tails.any (fun t => n ≤ t.length && (t.take n).all p)

/-- Worker for `wordRuns` (fuel-based structural recursion, fuel never runs
out for fuel = text length). -/
def wordRunsF : Nat → Str → List Str
  | _, [] => []
  | 0, _ => []
  | fuel + 1, c :: cs =>
    if isWordChar c then
      (c :: cs.takeWhile isWordChar) :: wordRunsF fuel (cs.dropWhile isWordChar)
    else wordRunsF fuel cs

/-- Maximal runs of word characters in a text (the candidate sites of
`\b[a-z]{3,}\b` matches). -/
def wordRuns (s : Str) : List Str := wordRunsF s.length s

/-- Model of `text.toLowerCase().match(/\b[a-z]{3,}\b/g) || []`: a maximal
word-character run of the lowercased text is a match exactly when it consists
solely of lowercase letters and has length at least 3 (a digit or underscore
inside a run prevents the word boundaries from landing around its letters). -/
def matchWords (text : Str) : List Str :=
  (wordRuns (lowerStr text)).filter (fun w => 3 ≤ w.length && w.all isLowerAZ)

/-- The stopword set of `extractKeywords`. -/
def stopWords : List Str :=
  [str "the", str "and", str "or", str "but", str "in", str "on", str "at",
   str "to", str "for", str "of", str "with", str "by", str "this", str "that",
   str "these", str "those", str "a", str "an", str "is", str "are", str "was",
   str "were", str "be", str "been", str "being", str "have", str "has",
   str "had", str "do", str "does", str "did", str "will", str "would",
   str "could", str "should", str "may", str "might", str "must", str "can"]

/-- The domain-substring-or-length filter of `extractKeywords`. -/
def domainFilter (w : Str) : Bool :=
  containsSub (str "react") w || containsSub (str "javascript") w ||
  containsSub (str "typescript") w || containsSub (str "css") w ||
  containsSub (str "html") w || containsSub (str "frontend") w ||
  containsSub (str "developer") w || containsSub (str "experience") w ||
  containsSub (str "application") w || containsSub (str "framework") w ||
  containsSub (str "responsive") w || containsSub (str "design") w ||
  containsSub (str "tailwind") w || decide (4 ≤ w.length)

/-- Keep the first occurrence of each element, dropping later duplicates
(model of `.filter((word, index, arr) => arr.indexOf(word) === index)`);
`seen` accumulates the elements already emitted. -/
def dedupF (seen : List Str) : List Str → List Str
  | [] => []
  | w :: ws => if seen.contains w then dedupF seen ws else w :: dedupF (w :: seen) ws

/-- Capitalize the first character
(model of `word.charAt(0).toUpperCase() + word.slice(1)`). -/
def capitalizeW : Str → Str
  | [] => []
  | c :: cs => Char.toUpper c :: cs

/-- The keyword extractor (`extractKeywords` in the source): tokenize the
lowercased job description, drop stopwords, apply the domain/length filter,
deduplicate keeping first occurrences, truncate to 10, capitalize. -/
def extractKeywords (text : Str) : List Str :=
  (((dedupF [] (((matchWords text).filter (fun w => !stopWords.contains w)).filter
      domainFilter)).take 10).map capitalizeW)

/-- Round-half-up of the nonnegative rational `a / b`
(model of `Math.round` on the values arising in `calculateMatchScore`). -/
def jsRound (a b : Nat) : Nat := (2 * a + b) / (2 * b)

/-- The score calculator (`calculateMatchScore` in the source). -/
def calculateMatchScore (keywords : List Str) (resume : Str) : Nat :=
  if keywords = [] then 60
  else
    let resumeLower := lowerStr resume
    let matched := keywords.filter (fun k => containsSub (lowerStr k) resumeLower)
    let baseScore := jsRound (100 * matched.length) keywords.length
    min 95 (max 50 baseScore)

/-- The garbled-text detector (`isGarbledText` in the source): three
character-class-run regex tests. -/
def isGarbledText (text : Str) : Bool :=
  hasRun (fun c => !isAlphaAZ c && !isWS c) 3 text ||
  hasRun isWordChar 20 text ||
  hasRun (fun c => !isWordChar c && !isWS c &&
    !(c = '.' || c = ',' || c = '-' || c = '(' || c = ')' || c = '@' ||
      c = '|' || c = '/' || c = ':')) 2 text

/-- Characters kept by the cleaning pass of `cleanAndStructureText`
(the class `[\w\s\-\.\,\(\)\@\|\/\:]`). -/
def isCleanKeep (c : Char) : Bool :=
  isWordChar c || isWS c ||
  (c = '-' || c = '.' || c = ',' || c = '(' || c = ')' || c = '@' ||
   c = '|' || c = '/' || c = ':')

/-- The eight fixed resume sections. -/
inductive SecKey where
  | header | summary | skills | experience | education | projects
  | certifications | additional
deriving DecidableEq, Repr

/-- The fixed-key section record (`ResumeSection` interface in the source). -/
structure ResumeSection where
  header : Str
  summary : Str
  skills : Str
  experience : Str
  education : Str
  projects : Str
  certifications : Str
  additional : Str
deriving DecidableEq, Repr

/-- The all-empty section record (initial accumulator of the parser). -/
def emptySections : ResumeSection :=
  ⟨[], [], [], [], [], [], [], []⟩

/-- Read the field selected by a section key. -/
def ResumeSection.get (s : ResumeSection) : SecKey → Str
  | .header => s.header
  | .summary => s.summary
  | .skills => s.skills
  | .experience => s.experience
  | .education => s.education
  | .projects => s.projects
  | .certifications => s.certifications
  | .additional => s.additional

/-- Append `line + "\n"` to the field selected by a section key
(model of `sections[currentSection] += line + "\n"`). -/
def ResumeSection.app (s : ResumeSection) (k : SecKey) (line : Str) : ResumeSection :=
  match k with
  | .header => { s with header := s.header ++ line ++ ['\n'] }
  | .summary => { s with summary := s.summary ++ line ++ ['\n'] }
  | .skills => { s with skills := s.skills ++ line ++ ['\n'] }
  | .experience => { s with experience := s.experience ++ line ++ ['\n'] }
  | .education => { s with education := s.education ++ line ++ ['\n'] }
  | .projects => { s with projects := s.projects ++ line ++ ['\n'] }
  | .certifications => { s with certifications := s.certifications ++ line ++ ['\n'] }
  | .additional => { s with additional := s.additional ++ line ++ ['\n'] }

/-- The section-title detection chain at the top of the parser loop: the first
matching branch, tested on the lowercased line, wins; a match consumes the
line and moves the cursor. -/
def lineTrigger (line : Str) : Option SecKey :=
  let lowerLine := lowerStr line
  if containsSub (str "professional summary") lowerLine ||
     containsSub (str "summary") lowerLine then some .summary
  else if containsSub (str "technical skills") lowerLine ||
     containsSub (str "skills") lowerLine then some .skills
  else if containsSub (str "professional experience") lowerLine ||
     containsSub (str "experience") lowerLine ||
     containsSub (str "work history") lowerLine then some .experience
  else if containsSub (str "education") lowerLine then some .education
  else if containsSub (str "projects") lowerLine then some .projects
  else if containsSub (str "certifications") lowerLine then some .certifications
  else if containsSub (str "additional information") lowerLine ||
     containsSub (str "additional") lowerLine then some .additional
  else none

/-- Contact-marker test of the header phase (case-sensitive, on the raw line). -/
def hasContactMarker (line : Str) : Bool :=
  containsSub (str "@") line || containsSub (str "linkedin") line ||
  containsSub (str "github") line || containsSub (str "phone") line ||
  containsSub (str "email") line

/-- The soft-skill bullet redirection test (applies from any section). -/
def softSkillBullet (line : Str) : Bool :=
  let lowerLine := lowerStr line
  startsWithL (str "•") line &&
  (containsSub (str "continuous learner") lowerLine ||
   containsSub (str "available for") lowerLine ||
   containsSub (str "immediate start") lowerLine ||
   containsSub (str "flexible work") lowerLine ||
   containsSub (str "problem-solving") lowerLine ||
   containsSub (str "communication") lowerLine ||
   containsSub (str "team player") lowerLine ||
   containsSub (str "attention to detail") lowerLine ||
   (containsSub (str "strong") lowerLine &&
    (containsSub (str "abilities") lowerLine ||
     containsSub (str "skills") lowerLine)))

/-- The skills-specific bullet redirection test. -/
def skillsRedirect (line : Str) : Bool :=
  let lowerLine := lowerStr line
  startsWithL (str "•") line &&
  (containsSub (str "portfolio") lowerLine ||
   containsSub (str "staying updated") lowerLine ||
   containsSub (str "latest technologies") lowerLine)

/-- The parser's loop state: current-section cursor, the `headerComplete`
flag, and the accumulated sections. -/
structure PState where
  cur : SecKey
  hc : Bool
  secs : ResumeSection
deriving DecidableEq, Repr

/-- The tail of the parser's loop body after the header phase: the two bullet
redirections, then the default append to the current section. -/
def afterHeader (st : PState) (line : Str) : PState :=
  if softSkillBullet line then { st with secs := st.secs.app .additional line }
  else if st.cur = .skills ∧ skillsRedirect line then
    { st with secs := st.secs.app .additional line }
  else { st with secs := st.secs.app st.cur line }

/-- One iteration of the parser loop of `parseResumeIntoSections`. -/
def parseStep (st : PState) (line : Str) : PState :=
  match lineTrigger line with
  | some k => { st with cur := k }
  | none =>
    if st.cur = .header ∧ st.hc = false then
      if hasContactMarker line then { st with secs := st.secs.app .header line }
      else if st.secs.header ≠ [] ∧
          ¬containsSub (str "developer") (lowerStr line) = true ∧
          ¬containsSub (str "engineer") (lowerStr line) = true then
        afterHeader { st with hc := true, cur := .summary } line
      else afterHeader st line
    else afterHeader st line

/-- The parser's line stream: split on newlines, trim each line, drop empties. -/
def parseLines (resume : Str) : List Str :=
  ((splitNL resume).map trimL).filter (fun l => !l.isEmpty)

/-- The resume sectioner (`parseResumeIntoSections` in the source). -/
def parseResumeIntoSections (resume : Str) : ResumeSection :=
  ((parseLines resume).foldl parseStep ⟨.header, false, emptySections⟩).secs

/-- The canned summary inserted when the summary section is empty. -/
def cannedSummary : Str :=
  str "Passionate Frontend Developer with 3 years of experience creating dynamic React web applications. Skilled in JavaScript, TypeScript, and modern frameworks with proven expertise in responsive design principles and collaborative development."

/-- The summary enhancer (`enhanceSummarySection` in the source).  Both
conditions test the lowercase form of the trimmed input (computed once,
before any replacement). -/
def enhanceSummarySection (summary : Str) : Str :=
  if trimL summary = [] then cannedSummary
  else
    let e0 := trimL summary
    let summaryLower := lowerStr e0
    let e1 :=
      if containsSub (str "react") summaryLower &&
         !containsSub (str "typescript") summaryLower then
        replaceAll true (str "react") (str "React and TypeScript") e0
      else e0
    if containsSub (str "javascript") summaryLower &&
       !containsSub (str "react") summaryLower then
      replaceAll true (str "javascript") (str "React, JavaScript") e1
    else e1

/-- The skills enhancer (`enhanceSkillsSection` in the source).
`skillsLower` is computed once from the trimmed input; the second condition
still consults it after the first replacement, as in the source. -/
def enhanceSkillsSection (skills : Str) (keywords : List Str) : Str :=
  if trimL skills = [] then skills
  else
    let e0 := trimL skills
    let skillsLower := lowerStr e0
    let e1 :=
      if !containsSub (str "typescript") skillsLower &&
         containsSub (str "JavaScript") e0 then
        replaceFirst (str "JavaScript") (str "JavaScript, TypeScript") e0
      else e0
    if !containsSub (str "tailwind") skillsLower &&
       keywords.any (fun k => containsSub (str "tailwind") (lowerStr k)) &&
       containsSub (str "Bootstrap") e1 then
      replaceFirst (str "Bootstrap") (str "Bootstrap, Tailwind CSS") e1
    else e1

/-- The experience enhancer (`enhanceExperienceSection` in the source): two
global case-sensitive replacements, applied in sequence, gated on a
TypeScript keyword being present. -/
def enhanceExperienceSection (experience : Str) (keywords : List Str) : Str :=
  if trimL experience = [] then experience
  else
    let e0 := trimL experience
    if keywords.any (fun k => containsSub (str "typescript") (lowerStr k)) then
      replaceAll false (str "using React.js") (str "using React.js and TypeScript")
        (replaceAll false (str "React.js and modern JavaScript")
          (str "React.js, TypeScript, and modern JavaScript") e0)
    else e0

/-- The line filter applied to the skills section by the reconstructor. -/
def keepSkillLine (line : Str) : Bool :=
  let lower := lowerStr line
  !startsWithL (str "•") line ||
  containsSub (str "programming") lower || containsSub (str "frameworks") lower ||
  containsSub (str "tools") lower || containsSub (str "databases") lower ||
  containsSub (str "design") lower || containsSub (str "languages") lower

/-- The resume reconstructor (`reconstructResume` in the source): each
populated section contributes its uppercase label, its trimmed content, and a
blank separator line (no blank line after ADDITIONAL INFORMATION); the result
is trimmed. -/
def reconstructResume (s : ResumeSection) : Str :=
  trimL
    ((if trimL s.header ≠ [] then trimL s.header ++ str "\n\n" else []) ++
     (if trimL s.summary ≠ [] then
        str "PROFESSIONAL SUMMARY\n" ++ trimL s.summary ++ str "\n\n" else []) ++
     (if trimL s.skills ≠ [] then
        str "TECHNICAL SKILLS\n" ++
          joinNL ((splitNL (trimL s.skills)).filter keepSkillLine) ++ str "\n\n"
      else []) ++
     (if trimL s.experience ≠ [] then
        str "PROFESSIONAL EXPERIENCE\n" ++ trimL s.experience ++ str "\n\n" else []) ++
     (if trimL s.education ≠ [] then
        str "EDUCATION\n" ++ trimL s.education ++ str "\n\n" else []) ++
     (if trimL s.projects ≠ [] then
        str "PROJECTS\n" ++ trimL s.projects ++ str "\n\n" else []) ++
     (if trimL s.certifications ≠ [] then
        str "CERTIFICATIONS\n" ++ trimL s.certifications ++ str "\n\n" else []) ++
     (if trimL s.additional ≠ [] then
        str "ADDITIONAL INFORMATION\n" ++ trimL s.additional ++ str "\n" else []))

/-- The tech-keyword subset used by the enhancers. -/
def techKeywordsOf (jobKeywords : List Str) : List Str :=
  jobKeywords.filter (fun k =>
    let kl := lowerStr k
    containsSub (str "react") kl || containsSub (str "typescript") kl ||
    containsSub (str "javascript") kl || containsSub (str "css") kl ||
    containsSub (str "tailwind") kl)

/-- The heuristic tailoring pipeline (`enhanceResumeWithKeywords` in the
source): section, enhance summary/skills/experience, reconstruct. -/
def enhanceResumeWithKeywords (originalResume : Str) (jobKeywords : List Str) : Str :=
  let resumeSections := parseResumeIntoSections originalResume
  let techKeywords := techKeywordsOf jobKeywords
  reconstructResume
    { resumeSections with
      summary := enhanceSummarySection resumeSections.summary
      skills := enhanceSkillsSection resumeSections.skills techKeywords
      experience := enhanceExperienceSection resumeSections.experience techKeywords }

/-- The cleaning pass of `cleanAndStructureText`: strip disallowed characters
to spaces, collapse whitespace, collapse dotted gaps, trim. -/
def cleanedOf (text : Str) : Str :=
  trimL (collapseDots (collapseWS
    (text.map (fun c => if isCleanKeep c then c else ' '))))

/-- The marker test of `cleanAndStructureText`: true when the cleaned text
lacks all three of the (case-sensitive) section markers. -/
def lacksResumeMarkers (cleaned : Str) : Bool :=
  !containsSub (str "PROFESSIONAL") cleaned &&
  !containsSub (str "EXPERIENCE") cleaned &&
  !containsSub (str "SKILLS") cleaned

/-- The output validator and cleaner (`cleanAndStructureText` in the source):
every rejection branch falls back to the heuristic pipeline invoked with an
empty keyword list. -/
def cleanAndStructureText (text originalResume : Str) : Str :=
  if text = [] ∨ (trimL text).length < 50 then
    enhanceResumeWithKeywords originalResume []
  else if (cleanedOf text).length < 100 ∨ isGarbledText (cleanedOf text) = true then
    enhanceResumeWithKeywords originalResume []
  else if lacksResumeMarkers (cleanedOf text) = true then
    enhanceResumeWithKeywords originalResume []
  else cleanedOf text

/-- The improvements list generator (`generateImprovements` in the source). -/
def generateImprovements (matchScore : Nat) (useAlternative : Bool) : List Str :=
  let improvements :=
    [str "Enhanced resume structure and formatting",
     str "Improved keyword optimization for ATS systems",
     str "Strengthened professional presentation",
     str "Added TypeScript and React focus"]
  let i2 :=
    if 80 ≤ matchScore then improvements ++ [str "Achieved excellent job-resume alignment"]
    else if 65 ≤ matchScore then improvements ++ [str "Significantly improved job relevance"]
    else improvements
  if useAlternative then i2 ++ [str "Applied advanced AI optimization techniques"]
  else i2 ++ [str "Applied intelligent content enhancement"]

/-- The success-response record of the route (the `timestamp` field, a wall
clock reading, is omitted from the model). -/
structure ApiResponse where
  tailoredResume : Str
  keywords : List Str
  improvements : List Str
  matchScore : Nat
  service : Str
deriving DecidableEq, Repr

/-- The two response shapes the POST handler can produce for a parsed request
body: a 200 success payload or the 400 validation error. -/
inductive PostResponse where
  | ok (r : ApiResponse)
  | clientError (error : Str)
deriving DecidableEq, Repr

/-- The POST handler of the route, for a parsed request body.  The external
summarizer is an explicit outcome parameter: `.ok t` models a call whose
extracted `summary_text` is `t` (the empty string when the output array is
malformed), `.error ()` models a call that throws; in the source the thrown
error is caught by the inner try/catch, which answers with the heuristic
fallback payload. -/
def POST (jobDescription resumeText : Str) (useAlternative : Bool)
    (summarizer : Except Unit Str) : PostResponse :=
  if trimL jobDescription = [] ∨ trimL resumeText = [] then
    .clientError (str "Both job description and resume text are required")
  else
    let keywords := extractKeywords jobDescription
    match summarizer with
    | .ok generatedText =>
      let finalResume := cleanAndStructureText generatedText resumeText
      let matchScore := calculateMatchScore keywords finalResume
      .ok { tailoredResume := finalResume
            keywords := keywords.take 8
            improvements := generateImprovements matchScore useAlternative
            matchScore := matchScore
            service := if useAlternative then str "DistilBART-Large"
                       else str "DistilBART-CNN" }
    | .error _ =>
      let enhancedResume := enhanceResumeWithKeywords resumeText keywords
      let matchScore := calculateMatchScore keywords enhancedResume
      .ok { tailoredResume := enhancedResume
            keywords := keywords.take 8
            improvements :=
              [str "Applied keyword optimization",
               str "Enhanced resume structure",
               str "Added TypeScript and React focus",
               str "Maintained professional formatting"]
            matchScore := matchScore
            service := str "Enhanced Original (Fallback)" }

/-- The tailored text of a response (`[]` for the error shape). -/
def respResume : PostResponse → Str
  | .ok r => r.tailoredResume
  | .clientError _ => []

/-- The service label of a response (`[]` for the error shape). -/
def respService : PostResponse → Str
  | .ok r => r.service
  | .clientError _ => []

/-- The match score of a response (`0` for the error shape). -/
def respScore : PostResponse → Nat
  | .ok r => r.matchScore
  | .clientError _ => 0

/-- The keyword extractor with its token-keep filter replaced by plain
`length ≥ 4`; the comparison variant named by the spec's dead-code claim.
This one definition follows the spec's words rather than the source. -/
def extractKeywordsLen4 (text : Str) : List Str :=
  (((dedupF [] (((matchWords text).filter (fun w => !stopWords.contains w)).filter
      (fun w => decide (4 ≤ w.length)))).take 10).map capitalizeW)

/-- The job description of the spec's walk-through scenario. -/
def scenarioJD : Str :=
  str "We need a Senior React Developer with TypeScript, Tailwind CSS, and responsive design experience."

/-- The resume text of the spec's walk-through scenario. -/
def scenarioResume : Str :=
  str "John Doe\njohn@example.com\nSenior Developer\n\nSkills\nJavaScript, Bootstrap\n\nExperience\nBuilt apps using React.js and modern JavaScript."

/-- A normal English sentence of exactly 150 characters: single spaces, words
under 20 characters, and no symbol runs, so none of the three garbled-text
patterns can match it. -/
def sentence150 : Str :=
  str "The quick brown fox jumps over the lazy dog while the placid river flows south past the old stone bridge and the quiet village slumbers in the valley."

/-- Is there a first character, and is it not whitespace? -/
def firstNonWS : Str → Bool
  | [] => false
  | c :: _ => !isWS c

/-- Is there a last character, and is it not whitespace? -/
def lastNonWS (l : Str) : Bool := firstNonWS l.reverse

/-- A line is safe for the sectioning round trip: it has non-whitespace first
and last characters, is newline-free, is not a bullet line, and its lowercase
form contains none of the parser's section-trigger substrings. -/
def safeLine (l : Str) : Prop :=
  firstNonWS l = true ∧ lastNonWS l = true ∧ ('\n' ∈ l → False) ∧
  startsWithL (str "•") l = false ∧
  containsSub (str "professional summary") (lowerStr l) = false ∧
  containsSub (str "summary") (lowerStr l) = false ∧
  containsSub (str "technical skills") (lowerStr l) = false ∧
  containsSub (str "skills") (lowerStr l) = false ∧
  containsSub (str "professional experience") (lowerStr l) = false ∧
  containsSub (str "experience") (lowerStr l) = false ∧
  containsSub (str "work history") (lowerStr l) = false ∧
  containsSub (str "education") (lowerStr l) = false ∧
  containsSub (str "projects") (lowerStr l) = false ∧
  containsSub (str "certifications") (lowerStr l) = false ∧
  containsSub (str "additional information") (lowerStr l) = false ∧
  containsSub (str "additional") (lowerStr l) = false

/-- Line safety is checkable. -/
instance (l : Str) : Decidable (safeLine l) := by
  unfold safeLine
  infer_instance

/-- Append each line followed by a newline: the shape in which the parser
accumulates section content. -/
def joinTrail (ls : List Str) : Str := (ls.map (fun l => l ++ ['\n'])).join

/-- Build a section record from per-section line lists, in the accumulated
form the parser produces. -/
def fromLines (H Su Sk Ex Ed P C A : List Str) : ResumeSection :=
  ⟨joinTrail H, joinTrail Su, joinTrail Sk, joinTrail Ex,
   joinTrail Ed, joinTrail P, joinTrail C, joinTrail A⟩

/-- Overwrite the field selected by a section key. -/
def ResumeSection.set (s : ResumeSection) (k : SecKey) (v : Str) : ResumeSection :=
  match k with
  | .header => { s with header := v }
  | .summary => { s with summary := v }
  | .skills => { s with skills := v }
  | .experience => { s with experience := v }
  | .education => { s with education := v }
  | .projects => { s with projects := v }
  | .certifications => { s with certifications := v }
  | .additional => { s with additional := v }

/-- Append a list of lines to one section, line by line. -/
def appendAll (secs : ResumeSection) (k : SecKey) (L : List Str) : ResumeSection :=
  L.foldl (fun s l => s.app k l) secs

/-- The optional label-plus-content block a populated section contributes to
the reconstructor's line stream. -/
def optBlock (label : Str) (S : List Str) : List Str :=
  if S = [] then [] else label :: S

/-- A resume that contains a reconstructor section label but whose content
line mentions "education": the parser consumes the content line as a section
switch and the text is lost. -/
def lossyResume : Str := str "PROFESSIONAL EXPERIENCE\nTaught special education classes"

/-- The header's contribution to the reconstructor's output, in joined form. -/
def hdrBlock (H : List Str) : Str :=
  if H = [] then [] else joinNL H ++ str "\n\n"

/-- A populated section's contribution to the reconstructor's output, in
joined form. -/
def secBlock (label : Str) (S : List Str) : Str :=
  if S = [] then [] else (label ++ ['\n']) ++ joinNL S ++ str "\n\n"

/-- The additional section's contribution (no trailing blank line). -/
def lastBlock (label : Str) (S : List Str) : Str :=
  if S = [] then [] else (label ++ ['\n']) ++ joinNL S ++ str "\n"

/-! ## Helper lemmas -/

/-- Reading back the numeral of a valid character code. -/
theorem toNat_ofNat_valid {n : Nat} (h : n.isValidChar) : (Char.ofNat n).toNat = n := by
  simp only [Char.ofNat, h, dif_pos]
  simp [Char.ofNatAux, Char.toNat, UInt32.toNat, BitVec.toNat_ofNatLt]

/-- Uppercasing a lowercase ASCII letter subtracts 32 from its code. -/
theorem toNat_toUpper_of_lower {c : Char} (h1 : 97 ≤ c.toNat) (h2 : c.toNat ≤ 122) :
    (Char.toUpper c).toNat = c.toNat - 32 := by
  have hv : (c.toNat - 32).isValidChar := by
    constructor
    omega
  unfold Char.toUpper
  rw [if_pos ⟨h1, h2⟩, toNat_ofNat_valid hv]

/-- Lowercasing after uppercasing a lowercase ASCII letter is the identity. -/
theorem toLower_toUpper_of_lower {c : Char} (h1 : 97 ≤ c.toNat) (h2 : c.toNat ≤ 122) :
    Char.toLower (Char.toUpper c) = c := by
  have hv : (c.toNat - 32).isValidChar := by
    constructor
    omega
  have hu : Char.toUpper c = Char.ofNat (c.toNat - 32) := by
    unfold Char.toUpper
    rw [if_pos ⟨h1, h2⟩]
  have hn : (Char.toUpper c).toNat = c.toNat - 32 := by
    rw [hu, toNat_ofNat_valid hv]
  unfold Char.toLower
  rw [hn, if_pos (by omega)]
  have h32 : c.toNat - 32 + 32 = c.toNat := by omega
  rw [h32, Char.ofNat_toNat]

/-- Lowercasing fixes every character outside `[A-Z]`. -/
theorem toLower_eq_self {c : Char} (h : ¬(65 ≤ c.toNat ∧ c.toNat ≤ 90)) :
    Char.toLower c = c := by
  unfold Char.toLower
  rw [if_neg h]

/-- The substring test agrees with the infix relation. -/
theorem containsSub_iff (pat s : Str) : containsSub pat s = true ↔ pat <:+: s := by
  induction s with
  | nil =>
    simp [containsSub, List.isEmpty_iff, List.infix_nil]
  | cons c cs ih =>
    simp only [containsSub, Bool.or_eq_true, ih, List.isPrefixOf_iff_prefix]
    exact (List.infix_cons_iff).symm

/-- If all of `s` satisfies `p` and `s` is long enough, `s` has a `p`-run. -/
theorem hasRun_of_all (p : Char → Bool) (n : Nat) (s : Str)
    (h1 : n ≤ s.length) (h2 : s.all p = true) : hasRun p n s = true := by
  unfold hasRun
  have htails : s.tails = s :: (match s with | [] => [] | _ :: cs => cs.tails) := by
    cases s <;> simp [List.tails]
  rw [htails, List.any_cons]
  have hhead : (decide (n ≤ s.length) && (s.take n).all p) = true := by
    rw [Bool.and_eq_true, decide_eq_true_iff]
    refine ⟨h1, ?_⟩
    rw [List.all_eq_true] at h2 ⊢
    intro x hx
    exact h2 x (List.mem_of_mem_take hx)
  rw [hhead, Bool.true_or]

/-! ## C1: score calculator bounds -/

/-- C1: for every keyword sequence and resume text, `calculateMatchScore`
returns exactly 60 when the keyword sequence is empty; otherwise it returns
`clamp(round(100 * matched / total), 50, 95)` where `matched` counts the
keywords whose lowercase form is a substring of the lowercased resume text;
hence the result is always in `{60} ∪ [50, 95]`. -/
theorem calculateMatchScore_spec (keywords : List Str) (resume : Str) :
    (keywords = [] → calculateMatchScore keywords resume = 60) ∧
    (keywords ≠ [] →
      calculateMatchScore keywords resume =
        min 95 (max 50 (jsRound
          (100 * (keywords.filter
            (fun k => containsSub (lowerStr k) (lowerStr resume))).length)
          keywords.length)) ∧
      50 ≤ calculateMatchScore keywords resume ∧
      calculateMatchScore keywords resume ≤ 95) := by
  constructor
  · intro h
    simp [calculateMatchScore, h]
  · intro h
    have hx : calculateMatchScore keywords resume =
        min 95 (max 50 (jsRound
          (100 * (keywords.filter
            (fun k => containsSub (lowerStr k) (lowerStr resume))).length)
          keywords.length)) := by
      unfold calculateMatchScore
      rw [if_neg h]
    refine ⟨hx, ?_, ?_⟩
    · rw [hx]
      exact le_min (by norm_num) (le_max_left _ _)
    · rw [hx]
      exact min_le_left _ _

/-- Witness for C1 at concrete inputs. -/
theorem calculateMatchScore_spec_witness :
    calculateMatchScore [] (str "abc") = 60 ∧
    50 ≤ calculateMatchScore [str "css"] (str "abc") ∧
    calculateMatchScore [str "css"] (str "abc") ≤ 95 :=
  ⟨(calculateMatchScore_spec [] (str "abc")).1 rfl,
   ((calculateMatchScore_spec [str "css"] (str "abc")).2 (by decide)).2.1,
   ((calculateMatchScore_spec [str "css"] (str "abc")).2 (by decide)).2.2⟩

/-! ## C7: request validation -/

/-- C7: for every request in which the job description or the resume text is
empty or whitespace-only, `POST` answers with the 400 client error carrying
the descriptive message, and the outcome is independent of the summarizer:
no keyword extraction or tailoring result is reflected in the response. -/
theorem POST_validation (jd rt : Str) (alt : Bool) (s1 s2 : Except Unit Str)
    (h : trimL jd = [] ∨ trimL rt = []) :
    POST jd rt alt s1 =
      .clientError (str "Both job description and resume text are required") ∧
    POST jd rt alt s1 = POST jd rt alt s2 := by
  unfold POST
  simp only [if_pos h]
  exact ⟨trivial, trivial⟩

/-- Witness for C7: a whitespace-only job description is rejected. -/
theorem POST_validation_witness :
    POST (str "  ") (str "resume") false (.error ()) =
      .clientError (str "Both job description and resume text are required") ∧
    POST (str "  ") (str "resume") false (.error ()) =
      POST (str "  ") (str "resume") false (.ok (str "anything")) :=
  POST_validation (str "  ") (str "resume") false (.error ()) (.ok (str "anything"))
    (Or.inl (by decide))

/-- Projection of the tailored text out of a success response. -/
theorem respResume_ok (r : ApiResponse) : respResume (.ok r) = r.tailoredResume := rfl

/-- Projection of the service label out of a success response. -/
theorem respService_ok (r : ApiResponse) : respService (.ok r) = r.service := rfl

/-- Projection of the match score out of a success response. -/
theorem respScore_ok (r : ApiResponse) : respScore (.ok r) = r.matchScore := rfl

/-! ## C3: the tailoring operation never fails outward -/

/-- C3: for every request whose job description and resume text are non-empty
after trimming, `POST` produces a 200 success response for every summarizer
outcome; a summarizer exception is absorbed and answered with the heuristic
fallback text built from the extracted keywords. -/
theorem POST_never_fails (jd rt : Str) (alt : Bool) (summ : Except Unit Str)
    (hjd : trimL jd ≠ []) (hrt : trimL rt ≠ []) :
    (∃ r, POST jd rt alt summ = .ok r) ∧
    (∀ e, respResume (POST jd rt alt (.error e)) =
      enhanceResumeWithKeywords rt (extractKeywords jd)) := by
  have hcond : ¬(trimL jd = [] ∨ trimL rt = []) := by
    rintro (h | h)
    · exact hjd h
    · exact hrt h
  constructor
  · cases summ with
    | ok t =>
      exact ⟨_, by unfold POST; rw [if_neg hcond]⟩
    | error e =>
      exact ⟨_, by unfold POST; rw [if_neg hcond]⟩
  · intro e
    have hP : POST jd rt alt (.error e) = .ok
        { tailoredResume := enhanceResumeWithKeywords rt (extractKeywords jd)
          keywords := (extractKeywords jd).take 8
          improvements :=
            [str "Applied keyword optimization",
             str "Enhanced resume structure",
             str "Added TypeScript and React focus",
             str "Maintained professional formatting"]
          matchScore := calculateMatchScore (extractKeywords jd)
            (enhanceResumeWithKeywords rt (extractKeywords jd))
          service := str "Enhanced Original (Fallback)" } := by
      unfold POST
      rw [if_neg hcond]
    rw [hP, respResume_ok]

/-- Witness for C3 at concrete inputs. -/
theorem POST_never_fails_witness :
    (∃ r, POST (str "job") (str "cv") false (.error ()) = .ok r) ∧
    (∀ e, respResume (POST (str "job") (str "cv") false (.error e)) =
      enhanceResumeWithKeywords (str "cv") (extractKeywords (str "job"))) :=
  POST_never_fails (str "job") (str "cv") false (.error ()) (by decide) (by decide)

/-! ## C4: service label (corrected) -/

set_option maxRecDepth 100000 in
set_option maxHeartbeats 2000000 in
/-- Counterexample to C4 as stated: when the summarizer returns without
throwing but its output (here the single character "x") fails validation, the
final resume is the heuristic pipeline's output, yet the service label is the
model name — not "Enhanced Original (Fallback)" as the claim requires on
every heuristic-produced result. -/
theorem POST_service_label_counterexample :
    respService (POST scenarioJD scenarioResume false (.ok (str "x"))) =
      str "DistilBART-CNN" ∧
    respResume (POST scenarioJD scenarioResume false (.ok (str "x"))) =
      enhanceResumeWithKeywords scenarioResume [] := by
  constructor <;> decide

/-- C4 (amended): the service label identifies the summarizer call's fate,
not which text was served: it is the model name exactly when the summarizer
call returned without throwing (even if its output failed validation and the
heuristic text was served), and "Enhanced Original (Fallback)" exactly when
the call threw. -/
theorem POST_service_label (jd rt : Str) (alt : Bool) (summ : Except Unit Str)
    (hjd : trimL jd ≠ []) (hrt : trimL rt ≠ []) :
    respService (POST jd rt alt summ) =
      match summ with
      | .ok _ => if alt then str "DistilBART-Large" else str "DistilBART-CNN"
      | .error _ => str "Enhanced Original (Fallback)" := by
  have hcond : ¬(trimL jd = [] ∨ trimL rt = []) := by
    rintro (h | h)
    · exact hjd h
    · exact hrt h
  cases summ with
  | ok t =>
    have hP : POST jd rt alt (.ok t) = .ok
        { tailoredResume := cleanAndStructureText t rt
          keywords := (extractKeywords jd).take 8
          improvements := generateImprovements
            (calculateMatchScore (extractKeywords jd) (cleanAndStructureText t rt)) alt
          matchScore := calculateMatchScore (extractKeywords jd)
            (cleanAndStructureText t rt)
          service := if alt then str "DistilBART-Large" else str "DistilBART-CNN" } := by
      unfold POST
      rw [if_neg hcond]
    rw [hP, respService_ok]
  | error e =>
    have hP : POST jd rt alt (.error e) = .ok
        { tailoredResume := enhanceResumeWithKeywords rt (extractKeywords jd)
          keywords := (extractKeywords jd).take 8
          improvements :=
            [str "Applied keyword optimization",
             str "Enhanced resume structure",
             str "Added TypeScript and React focus",
             str "Maintained professional formatting"]
          matchScore := calculateMatchScore (extractKeywords jd)
            (enhanceResumeWithKeywords rt (extractKeywords jd))
          service := str "Enhanced Original (Fallback)" } := by
      unfold POST
      rw [if_neg hcond]
    rw [hP, respService_ok]

/-- Witness for the amended C4 at concrete inputs. -/
theorem POST_service_label_witness :
    respService (POST (str "job") (str "cv") true (.error ())) =
      str "Enhanced Original (Fallback)" :=
  POST_service_label (str "job") (str "cv") true (.error ()) (by decide) (by decide)

/-! ## C2: the walk-through scenario (corrected) -/

set_option maxRecDepth 100000 in
set_option maxHeartbeats 2000000 in
/-- Counterexample to C2 as stated: on the scenario's fallback path the two
experience rewrites interact — the first produces
"using React.js, TypeScript, and modern JavaScript" and the second then
rewrites its prefix "using React.js" to "using React.js and TypeScript" — so
the claimed Experience substring "React.js, TypeScript, and modern
JavaScript" does not occur in the tailored text (the rest of the claim's
conjuncts do hold, see the amended theorem). -/
theorem scenario_fallback_counterexample :
    respService (POST scenarioJD scenarioResume false (.error ())) =
      str "Enhanced Original (Fallback)" ∧
    containsSub (str "React.js, TypeScript, and modern JavaScript")
      (respResume (POST scenarioJD scenarioResume false (.error ()))) = false := by
  constructor <;> decide

set_option maxRecDepth 100000 in
set_option maxHeartbeats 2000000 in
/-- C2 (amended): on the scenario's fallback path the tailored text is
exactly the reconstruction below, whose Skills line (the line after
"TECHNICAL SKILLS") is "JavaScript, TypeScript, Bootstrap, Tailwind CSS" —
containing "JavaScript, TypeScript" and "Bootstrap, Tailwind CSS" — and
whose Experience line (the line after "PROFESSIONAL EXPERIENCE") is
"Built apps using React.js and TypeScript, TypeScript, and modern
JavaScript." (the two gated rewrites compose); the service label is
"Enhanced Original (Fallback)" and the match score lies in [50, 95].  The
containment conjuncts are anchored to their section labels, so they hold of
the Skills and Experience lines themselves, not of the canned summary. -/
theorem scenario_fallback_spec :
    respService (POST scenarioJD scenarioResume false (.error ())) =
      str "Enhanced Original (Fallback)" ∧
    respResume (POST scenarioJD scenarioResume false (.error ())) =
      str "John Doe\njohn@example.com\nSenior Developer\n\nPROFESSIONAL SUMMARY\nPassionate Frontend Developer with 3 years of experience creating dynamic React web applications. Skilled in JavaScript, TypeScript, and modern frameworks with proven expertise in responsive design principles and collaborative development.\n\nTECHNICAL SKILLS\nJavaScript, TypeScript, Bootstrap, Tailwind CSS\n\nPROFESSIONAL EXPERIENCE\nBuilt apps using React.js and TypeScript, TypeScript, and modern JavaScript." ∧
    containsSub (str "TECHNICAL SKILLS\nJavaScript, TypeScript")
      (respResume (POST scenarioJD scenarioResume false (.error ()))) = true ∧
    containsSub (str "Bootstrap, Tailwind CSS\n\nPROFESSIONAL EXPERIENCE")
      (respResume (POST scenarioJD scenarioResume false (.error ()))) = true ∧
    containsSub
      (str "PROFESSIONAL EXPERIENCE\nBuilt apps using React.js and TypeScript, TypeScript, and modern JavaScript.")
      (respResume (POST scenarioJD scenarioResume false (.error ()))) = true ∧
    50 ≤ respScore (POST scenarioJD scenarioResume false (.error ())) ∧
    respScore (POST scenarioJD scenarioResume false (.error ())) ≤ 95 := by
  refine ⟨?_, ?_, ?_, ?_, ?_, ?_, ?_⟩ <;> decide

/-! ## C9: the garbled-text detector -/

/-- Letters are word characters. -/
theorem isWordChar_of_isAlphaAZ {c : Char} (h : isAlphaAZ c = true) :
    isWordChar c = true := by
  simp only [isAlphaAZ, isLowerAZ, isUpperAZ, isWordChar, Bool.or_eq_true,
    Bool.and_eq_true, decide_eq_true_iff] at h ⊢
  omega

set_option maxRecDepth 40000 in
/-- C9: the garbled-text detector flags every string of 25 identical letters
(no spaces): such a string is a 25-character word-character run, matching the
`\w{20,}` pattern; and it does not flag the concrete 150-character English
sentence `sentence150`, which realizes the claim's description (no qualifying
run for any of the three patterns). -/
theorem isGarbledText_spec :
    (∀ c, isAlphaAZ c = true → isGarbledText (List.replicate 25 c) = true) ∧
    sentence150.length = 150 ∧
    isGarbledText sentence150 = false := by
  refine ⟨?_, by decide, by decide⟩
  intro c hc
  have hrun : hasRun isWordChar 20 (List.replicate 25 c) = true := by
    apply hasRun_of_all
    · simp
    · rw [List.all_eq_true]
      intro x hx
      rw [List.eq_of_mem_replicate hx]
      exact isWordChar_of_isAlphaAZ hc
  unfold isGarbledText
  rw [hrun]
  simp

set_option maxRecDepth 40000 in
/-- Witness for C9 at a concrete letter. -/
theorem isGarbledText_spec_witness :
    isGarbledText (List.replicate 25 'q') = true ∧
    sentence150.length = 150 ∧
    isGarbledText sentence150 = false :=
  ⟨isGarbledText_spec.1 'q' (by decide), isGarbledText_spec.2.1, isGarbledText_spec.2.2⟩

/-! ## C10: validation failure falls back with an empty keyword list -/

/-- C10: whenever the summarizer's output fails validation (raw text empty or
under 50 characters after trimming, cleaned text under 100 characters,
garbled, or missing all three resume markers), `cleanAndStructureText`
answers with the heuristic pipeline invoked with an empty keyword list; and
with an empty keyword list the keyword-conditional enhancements are never
applied: the experience section is passed through (only trimmed) — no
TypeScript rewrite — and the skills section can only receive the
unconditional "JavaScript, TypeScript" insertion, never the
", Tailwind CSS" one. -/
theorem cleanAndStructureText_fallback (t orig : Str)
    (h : t = [] ∨ (trimL t).length < 50 ∨
         (cleanedOf t).length < 100 ∨ isGarbledText (cleanedOf t) = true ∨
         lacksResumeMarkers (cleanedOf t) = true) :
    cleanAndStructureText t orig = enhanceResumeWithKeywords orig [] ∧
    techKeywordsOf [] = [] ∧
    (∀ e, enhanceExperienceSection e [] = if trimL e = [] then e else trimL e) ∧
    (∀ s, enhanceSkillsSection s [] =
      if trimL s = [] then s
      else if !containsSub (str "typescript") (lowerStr (trimL s)) &&
          containsSub (str "JavaScript") (trimL s) then
        replaceFirst (str "JavaScript") (str "JavaScript, TypeScript") (trimL s)
      else trimL s) := by
  refine ⟨?_, rfl, ?_, ?_⟩
  · unfold cleanAndStructureText
    by_cases h1 : t = [] ∨ (trimL t).length < 50
    · rw [if_pos h1]
    · rw [if_neg h1]
      by_cases h2 : (cleanedOf t).length < 100 ∨ isGarbledText (cleanedOf t) = true
      · rw [if_pos h2]
      · rw [if_neg h2]
        have h5 : lacksResumeMarkers (cleanedOf t) = true := by
          rcases h with h | h | h | h | h
          · exact absurd (Or.inl h) h1
          · exact absurd (Or.inr h) h1
          · exact absurd (Or.inl h) h2
          · exact absurd (Or.inr h) h2
          · exact h
        rw [if_pos h5]
  · intro e
    unfold enhanceExperienceSection
    by_cases he : trimL e = []
    · rw [if_pos he, if_pos he]
    · rw [if_neg he, if_neg he]
      simp
  · intro s
    unfold enhanceSkillsSection
    by_cases hs : trimL s = []
    · rw [if_pos hs, if_pos hs]
    · rw [if_neg hs, if_neg hs]
      simp

/-- Witness for C10: an empty summarizer output falls back with no keywords. -/
theorem cleanAndStructureText_fallback_witness :
    cleanAndStructureText [] (str "Skills\nJavaScript") =
      enhanceResumeWithKeywords (str "Skills\nJavaScript") [] :=
  (cleanAndStructureText_fallback [] (str "Skills\nJavaScript") (Or.inl rfl)).1

/-! ## C6: the domain-substring filter (corrected) -/

/-- Counterexample to C6 as stated: the domain-substring filter is not dead
code.  The token "css" has length 3, so the `length ≥ 4` clause rejects it,
but it contains the domain substring "css" and is therefore kept by the
actual filter: on the input "css" the extractor and its `length ≥ 4`-only
variant disagree. -/
theorem extractKeywords_len4_counterexample :
    extractKeywords (str "css") = [str "Css"] ∧
    extractKeywordsLen4 (str "css") = [] ∧
    extractKeywords (str "css") ≠ extractKeywordsLen4 (str "css") := by
  refine ⟨?_, ?_, ?_⟩ <;> decide

/-- On a token of length at least 3 other than "css" itself, the
domain-substring filter coincides with the plain `length ≥ 4` test: every
domain substring other than "css" has length at least 4, and the only
length-3 token containing "css" is "css". -/
theorem domainFilter_eq_len4 {w : Str} (h3 : 3 ≤ w.length) (hcss : w ≠ str "css") :
    domainFilter w = decide (4 ≤ w.length) := by
  by_cases h4 : 4 ≤ w.length
  · simp [domainFilter, h4]
  · have hlen : w.length = 3 := by omega
    rw [decide_eq_false h4, Bool.eq_false_iff]
    intro hdf
    simp only [domainFilter, Bool.or_eq_true, decide_eq_true_iff] at hdf
    rcases hdf with (((((((((((((hx | hx) | hx) | hx) | hx) | hx) | hx) | hx) | hx) | hx) | hx) | hx) | hx) | hx)
    all_goals first
      | (exact h4 hx)
      | (exact hcss (((containsSub_iff _ _).1 hx).sublist.eq_of_length
          (by rw [hlen]; decide)).symm)
      | (have hl := ((containsSub_iff _ _).1 hx).length_le
         rw [hlen] at hl
         exact absurd hl (by decide))

/-- C6 (amended): the domain-substring filter is live only for the exact
token "css"; on every job description whose token stream contains no token
equal to "css", the extractor agrees with the variant whose token-keep
filter is solely `length ≥ 4`. -/
theorem extractKeywords_len4_agree (text : Str)
    (h : ¬ str "css" ∈ matchWords text) :
    extractKeywords text = extractKeywordsLen4 text := by
  unfold extractKeywords extractKeywordsLen4
  have hfilter :
      ((matchWords text).filter (fun w => !stopWords.contains w)).filter domainFilter =
      ((matchWords text).filter (fun w => !stopWords.contains w)).filter
        (fun w => decide (4 ≤ w.length)) := by
    apply List.filter_congr
    intro w hw
    have hw0 : w ∈ matchWords text := List.mem_of_mem_filter hw
    have h3 : 3 ≤ w.length := by
      unfold matchWords at hw0
      have := (List.mem_filter.1 hw0).2
      simp only [Bool.and_eq_true, decide_eq_true_iff] at this
      exact this.1
    exact domainFilter_eq_len4 h3 (fun he => h (he ▸ hw0))
  rw [hfilter]

/-- Witness for the amended C6 on a concrete "css"-free description. -/
theorem extractKeywords_len4_agree_witness :
    extractKeywords (str "We need a senior React developer") =
      extractKeywordsLen4 (str "We need a senior React developer") :=
  extractKeywords_len4_agree (str "We need a senior React developer") (by decide)

/-! ## C5: keyword extractor shape -/

/-- Deduplication returns a sublist (hence a subsequence in order). -/
theorem dedupF_sublist (l : List Str) : ∀ seen, List.Sublist (dedupF seen l) l := by
  induction l with
  | nil => intro seen; simp [dedupF]
  | cons w ws ih =>
    intro seen
    unfold dedupF
    by_cases h : seen.contains w
    · rw [if_pos h]
      exact (ih seen).trans (List.sublist_cons_self w ws)
    · rw [if_neg h]
      exact (ih (w :: seen)).cons₂ w

/-- Elements emitted by the deduplicator were not in the seen accumulator. -/
theorem dedupF_not_mem_seen {x : Str} {l : List Str} :
    ∀ {seen}, x ∈ dedupF seen l → seen.contains x = false := by
  induction l with
  | nil => intro seen hx; simp [dedupF] at hx
  | cons w ws ih =>
    intro seen hx
    unfold dedupF at hx
    by_cases h : seen.contains w
    · rw [if_pos h] at hx
      exact ih hx
    · rw [if_neg h] at hx
      rcases List.mem_cons.1 hx with rfl | hx2
      · exact Bool.eq_false_iff.2 h
      · have h2 := ih hx2
        rw [List.contains_cons, Bool.or_eq_false_iff] at h2
        exact h2.2

/-- The deduplicator's output has pairwise-distinct entries. -/
theorem dedupF_pairwise (l : List Str) : ∀ seen, (dedupF seen l).Pairwise (· ≠ ·) := by
  induction l with
  | nil => intro seen; simp [dedupF]
  | cons w ws ih =>
    intro seen
    unfold dedupF
    by_cases h : seen.contains w
    · rw [if_pos h]
      exact ih seen
    · rw [if_neg h]
      refine List.Pairwise.cons ?_ (ih (w :: seen))
      intro y hy hwy
      have hc := dedupF_not_mem_seen hy
      rw [List.contains_cons, Bool.or_eq_false_iff] at hc
      have : (y == w) = false := hc.1
      rw [beq_eq_false_iff_ne] at this
      exact this hwy.symm

/-- Lowercasing fixes an all-lowercase text. -/
theorem lowerStr_of_all_lower {s : Str} (h : s.all isLowerAZ = true) :
    lowerStr s = s := by
  unfold lowerStr
  induction s with
  | nil => rfl
  | cons c cs ih =>
    simp only [List.all_cons, Bool.and_eq_true] at h
    simp only [List.map_cons]
    congr 1
    · apply toLower_eq_self
      have h1 := h.1
      simp only [isLowerAZ, Bool.and_eq_true, decide_eq_true_iff] at h1
      omega
    · exact ih h.2

/-- Uppercasing a lowercase ASCII letter yields an uppercase ASCII letter. -/
theorem isUpperAZ_toUpper {c : Char} (h : isLowerAZ c = true) :
    isUpperAZ (Char.toUpper c) = true := by
  simp only [isLowerAZ, Bool.and_eq_true, decide_eq_true_iff] at h
  have ht := toNat_toUpper_of_lower h.1 h.2
  simp only [isUpperAZ, Bool.and_eq_true, decide_eq_true_iff, ht]
  omega

/-- Lowercasing undoes capitalization on an all-lowercase word. -/
theorem lowerStr_capitalizeW {w : Str} (h : w.all isLowerAZ = true) :
    lowerStr (capitalizeW w) = w := by
  cases w with
  | nil => rfl
  | cons c cs =>
    simp only [List.all_cons, Bool.and_eq_true] at h
    show Char.toLower (Char.toUpper c) :: lowerStr cs = c :: cs
    have h1 := h.1
    simp only [isLowerAZ, Bool.and_eq_true, decide_eq_true_iff] at h1
    rw [toLower_toUpper_of_lower h1.1 h1.2, lowerStr_of_all_lower h.2]

/-- Tokens surviving the extractor's filters are lowercase words of length
at least 3. -/
theorem mem_keywordStream_props {text w : Str}
    (hw : w ∈ ((matchWords text).filter
      (fun w => !stopWords.contains w)).filter domainFilter) :
    3 ≤ w.length ∧ w.all isLowerAZ = true := by
  have hw1 : w ∈ matchWords text :=
    List.mem_of_mem_filter (List.mem_of_mem_filter hw)
  unfold matchWords at hw1
  have h2 := (List.mem_filter.1 hw1).2
  simp only [Bool.and_eq_true, decide_eq_true_iff] at h2
  exact h2

/-- C5: the keyword extractor returns at most 10 entries; each entry is an
uppercase ASCII letter followed by lowercase letters (first letter
capitalized); entries are pairwise distinct under case-insensitive
comparison; lowercasing the output yields a subsequence of the filtered token
stream (first-seen order preserved); and empty input yields the empty
sequence. -/
theorem extractKeywords_spec (text : Str) :
    (extractKeywords text).length ≤ 10 ∧
    (∀ k ∈ extractKeywords text, ∃ c cs, k = c :: cs ∧ isUpperAZ c = true ∧
      cs.all isLowerAZ = true) ∧
    (extractKeywords text).Pairwise (fun a b => lowerStr a ≠ lowerStr b) ∧
    List.Sublist ((extractKeywords text).map lowerStr)
      (((matchWords text).filter (fun w => !stopWords.contains w)).filter domainFilter) ∧
    (text = [] → extractKeywords text = []) := by
  refine ⟨?_, ?_, ?_, ?_, ?_⟩
  · unfold extractKeywords
    rw [List.length_map]
    exact List.length_take_le _ _
  · intro k hk
    unfold extractKeywords at hk
    rcases List.mem_map.1 hk with ⟨w, hwT, rfl⟩
    have hwL : w ∈ ((matchWords text).filter
        (fun w => !stopWords.contains w)).filter domainFilter :=
      (dedupF_sublist _ []).subset (List.mem_of_mem_take hwT)
    obtain ⟨h3, hall⟩ := mem_keywordStream_props hwL
    cases w with
    | nil => simp at h3
    | cons c cs =>
      simp only [List.all_cons, Bool.and_eq_true] at hall
      exact ⟨Char.toUpper c, cs, rfl, isUpperAZ_toUpper hall.1, hall.2⟩
  · unfold extractKeywords
    rw [List.pairwise_map]
    have hT : ((dedupF [] (((matchWords text).filter
        (fun w => !stopWords.contains w)).filter domainFilter)).take 10).Pairwise (· ≠ ·) :=
      (dedupF_pairwise _ []).sublist (List.take_sublist _ _)
    refine hT.imp_of_mem ?_
    intro a b ha hb hab
    have haL := (dedupF_sublist _ []).subset (List.mem_of_mem_take ha)
    have hbL := (dedupF_sublist _ []).subset (List.mem_of_mem_take hb)
    rw [lowerStr_capitalizeW (mem_keywordStream_props haL).2,
       lowerStr_capitalizeW (mem_keywordStream_props hbL).2]
    exact hab
  · unfold extractKeywords
    rw [List.map_map]
    have hmap : List.map (lowerStr ∘ capitalizeW)
        ((dedupF [] (((matchWords text).filter
          (fun w => !stopWords.contains w)).filter domainFilter)).take 10) =
        (dedupF [] (((matchWords text).filter
          (fun w => !stopWords.contains w)).filter domainFilter)).take 10 := by
      have hid : ∀ w ∈ (dedupF [] (((matchWords text).filter
          (fun w => !stopWords.contains w)).filter domainFilter)).take 10,
          (lowerStr ∘ capitalizeW) w = id w := by
        intro w hw
        have hwL : w ∈ ((matchWords text).filter
            (fun w => !stopWords.contains w)).filter domainFilter :=
          (dedupF_sublist _ []).subset (List.mem_of_mem_take hw)
        simpa using lowerStr_capitalizeW (mem_keywordStream_props hwL).2
      rw [List.map_congr_left hid, List.map_id]
    rw [hmap]
    exact (List.take_sublist _ _).trans (dedupF_sublist _ [])
  · intro h
    subst h
    decide

/-- Witness for C5 at concrete inputs. -/
theorem extractKeywords_spec_witness :
    (extractKeywords (str "react css design")).length ≤ 10 ∧
    extractKeywords [] = [] :=
  ⟨(extractKeywords_spec (str "react css design")).1,
   (extractKeywords_spec []).2.2.2.2 rfl⟩

/-! ## C8 groundwork: trimming and line-splitting lemmas -/

/-- Trimming the start is the identity on a text whose first character is not
whitespace. -/
theorem trimStart_eq_self {l : Str} (h : firstNonWS l = true) : trimStart l = l := by
  cases l with
  | nil => rfl
  | cons c cs =>
    simp only [firstNonWS, Bool.not_eq_eq_eq_not, Bool.not_true] at h
    unfold trimStart
    rw [List.dropWhile_cons, if_neg (by simp [h])]

/-- Trimming the end is the identity on a text whose last character is not
whitespace. -/
theorem trimEnd_eq_self {l : Str} (h : lastNonWS l = true) : trimEnd l = l := by
  unfold lastNonWS at h
  show (trimStart l.reverse).reverse = l
  rw [trimStart_eq_self h, List.reverse_reverse]

/-- Trimming is the identity on a text with non-whitespace first and last
characters. -/
theorem trimL_eq_self {l : Str} (h1 : firstNonWS l = true) (h2 : lastNonWS l = true) :
    trimL l = l := by
  unfold trimL
  rw [trimStart_eq_self h1, trimEnd_eq_self h2]

/-- Dropping a trailing whitespace character commutes out of `trimEnd`. -/
theorem trimEnd_append_ws {c : Char} (hc : isWS c = true) (x : Str) :
    trimEnd (x ++ [c]) = trimEnd x := by
  unfold trimEnd
  rw [List.reverse_append, List.reverse_singleton]
  show ((c :: x.reverse).dropWhile isWS).reverse = _
  rw [List.dropWhile_cons, if_pos (by simp [hc])]

/-- Dropping a trailing whitespace character commutes out of `trimL`. -/
theorem trimL_append_ws {c : Char} (hc : isWS c = true) (x : Str) :
    trimL (x ++ [c]) = trimL x := by
  unfold trimL trimStart
  rw [List.dropWhile_append]
  by_cases hx : (x.dropWhile isWS).isEmpty
  · rw [if_pos hx]
    have h1 : List.dropWhile isWS [c] = [] := by
      rw [show [c] = c :: [] from rfl, List.dropWhile_cons, if_pos (by simp [hc])]
      rfl
    rw [h1]
    rw [List.isEmpty_iff] at hx
    rw [hx]
  · rw [if_neg hx]
    exact trimEnd_append_ws hc _

/-- A nonempty first and last character survives in a trimmed safe line;
safe lines are fixed by `trimL`. -/
theorem safeLine_trimL {l : Str} (h : safeLine l) : trimL l = l :=
  trimL_eq_self h.1 h.2.1

/-- Safe lines are nonempty. -/
theorem safeLine_ne_nil {l : Str} (h : safeLine l) : l ≠ [] := by
  intro he
  subst he
  have h1 := h.1
  simp [firstNonWS] at h1

/-- Splitting never yields an empty list of segments. -/
theorem splitNL_ne_nil (s : Str) : splitNL s ≠ [] := by
  cases s with
  | nil => simp [splitNL]
  | cons c cs =>
    simp only [splitNL]
    by_cases h : c = '\n'
    · rw [if_pos h]
      simp
    · rw [if_neg h]
      cases hs : splitNL cs <;> simp

/-- Splitting consumes a leading newline-free line. -/
theorem splitNL_append_nl {l : Str} (hl : '\n' ∈ l → False) (r : Str) :
    splitNL (l ++ '\n' :: r) = l :: splitNL r := by
  induction l with
  | nil =>
    simp [splitNL]
  | cons c cs ih =>
    have hc : c ≠ '\n' := fun h => hl (by simp [h])
    have ihh := ih (fun h => hl (by simp [h]))
    show splitNL (c :: (cs ++ '\n' :: r)) = (c :: cs) :: splitNL r
    simp only [splitNL]
    rw [if_neg hc, ihh]

/-- Splitting after appending a final newline adds one empty segment. -/
theorem splitNL_append_nl_end (y : Str) : splitNL (y ++ ['\n']) = splitNL y ++ [[]] := by
  induction y with
  | nil => rfl
  | cons c cs ih =>
    show splitNL (c :: (cs ++ ['\n'])) = _
    simp only [splitNL]
    by_cases h : c = '\n'
    · rw [if_pos h, if_pos h, ih]
      rfl
    · rw [if_neg h, if_neg h, ih]
      cases hs : splitNL cs with
      | nil => exact absurd hs (splitNL_ne_nil cs)
      | cons hh tt => rfl

/-- Appending one non-newline character extends the final segment. -/
theorem splitNL_concat_ws {c : Char} (hnl : c ≠ '\n') :
    ∀ y : Str, ∃ front last, splitNL y = front ++ [last] ∧
      splitNL (y ++ [c]) = front ++ [last ++ [c]] := by
  intro y
  induction y with
  | nil => exact ⟨[], [], rfl, by simp [splitNL, hnl]⟩
  | cons d ys ih =>
    obtain ⟨f, la, h1, h2⟩ := ih
    by_cases hd : d = '\n'
    · refine ⟨[] :: f, la, ?_, ?_⟩
      · show splitNL (d :: ys) = _
        simp only [splitNL]
        rw [if_pos hd, h1]
        rfl
      · show splitNL (d :: (ys ++ [c])) = _
        simp only [splitNL]
        rw [if_pos hd, h2]
        rfl
    · cases f with
      | nil =>
        refine ⟨[], d :: la, ?_, ?_⟩
        · show splitNL (d :: ys) = _
          simp only [splitNL]
          rw [if_neg hd, h1]
          rfl
        · show splitNL (d :: (ys ++ [c])) = _
          simp only [splitNL]
          rw [if_neg hd, h2]
          rfl
      | cons g gs =>
        refine ⟨(d :: g) :: gs, la, ?_, ?_⟩
        · show splitNL (d :: ys) = _
          simp only [splitNL]
          rw [if_neg hd, h1]
          rfl
        · show splitNL (d :: (ys ++ [c])) = _
          simp only [splitNL]
          rw [if_neg hd, h2]
          rfl

/-- Dropping a leading whitespace character does not change the parsed
line stream. -/
theorem parseLines_cons_ws {c : Char} (hc : isWS c = true) (cs : Str) :
    parseLines (c :: cs) = parseLines cs := by
  by_cases hnl : c = '\n'
  · subst hnl
    unfold parseLines
    have h1 : splitNL ('\n' :: cs) = [] :: splitNL cs := by
      simp [splitNL]
    rw [h1]
    simp [trimL, trimStart, trimEnd]
  · unfold parseLines
    cases hs : splitNL cs with
    | nil => exact absurd hs (splitNL_ne_nil cs)
    | cons hh tt =>
      have h1 : splitNL (c :: cs) = (c :: hh) :: tt := by
        simp only [splitNL]
        rw [if_neg hnl, hs]
      rw [h1]
      have ht : trimL (c :: hh) = trimL hh := by
        unfold trimL trimStart
        rw [List.dropWhile_cons, if_pos (by simp [hc])]
      simp only [List.map_cons, ht]

/-- Trimming the start does not change the parsed line stream. -/
theorem parseLines_trimStart (v : Str) : parseLines (trimStart v) = parseLines v := by
  induction v with
  | nil => rfl
  | cons c cs ih =>
    by_cases hw : isWS c = true
    · have h1 : trimStart (c :: cs) = trimStart cs := by
        unfold trimStart
        rw [List.dropWhile_cons, if_pos (by simp [hw])]
      rw [h1, ih, parseLines_cons_ws hw]
    · have h1 : trimStart (c :: cs) = c :: cs := by
        unfold trimStart
        rw [List.dropWhile_cons, if_neg (by simp [hw])]
      rw [h1]

/-- Appending a trailing whitespace character does not change the parsed
line stream. -/
theorem parseLines_append_ws {c : Char} (hc : isWS c = true) (y : Str) :
    parseLines (y ++ [c]) = parseLines y := by
  by_cases hnl : c = '\n'
  · subst hnl
    unfold parseLines
    rw [splitNL_append_nl_end]
    simp [trimL, trimStart, trimEnd]
  · obtain ⟨front, last, h1, h2⟩ := splitNL_concat_ws hnl y
    unfold parseLines
    rw [h1, h2]
    simp only [List.map_append, List.filter_append, List.map_cons, List.map_nil]
    rw [trimL_append_ws hc]

/-- Appending whitespace-only text does not change the parsed line stream. -/
theorem parseLines_append_all_ws (s : Str) (hs : ∀ c ∈ s, isWS c = true) :
    ∀ y, parseLines (y ++ s) = parseLines y := by
  induction s with
  | nil =>
    intro y
    rw [List.append_nil]
  | cons c s' ih =>
    intro y
    have hy : y ++ c :: s' = (y ++ [c]) ++ s' := by simp
    rw [hy, ih (fun d hd => hs d (List.mem_cons_of_mem c hd)),
       parseLines_append_ws (hs c (List.mem_cons_self c s')) y]

/-- Trimming the end does not change the parsed line stream. -/
theorem parseLines_trimEnd (w : Str) : parseLines (trimEnd w) = parseLines w := by
  have hdecomp : w = trimEnd w ++ (w.reverse.takeWhile isWS).reverse := by
    conv_lhs => rw [← List.reverse_reverse w,
      ← List.takeWhile_append_dropWhile isWS w.reverse]
    rw [List.reverse_append]
    rfl
  conv_rhs => rw [hdecomp]
  rw [parseLines_append_all_ws]
  intro c hcm
  rw [List.mem_reverse] at hcm
  exact List.mem_takeWhile_imp hcm

/-- Trimming does not change the parsed line stream. -/
theorem parseLines_trimL (v : Str) : parseLines (trimL v) = parseLines v := by
  unfold trimL
  rw [parseLines_trimEnd, parseLines_trimStart]

/-- Unfolding one line of the accumulated section form. -/
theorem joinTrail_cons (l : Str) (ls : List Str) :
    joinTrail (l :: ls) = l ++ '\n' :: joinTrail ls := by
  simp [joinTrail, List.append_assoc]

/-- Two-line unfolding of the newline join. -/
theorem joinNL_cons₂ (a b : Str) (t : List Str) :
    joinNL (a :: b :: t) = a ++ '\n' :: joinNL (b :: t) := rfl

/-- The accumulated form is the joined form plus a trailing newline. -/
theorem joinTrail_eq_joinNL {L : List Str} (h : L ≠ []) :
    joinTrail L = joinNL L ++ ['\n'] := by
  induction L with
  | nil => exact absurd rfl h
  | cons l ls ih =>
    cases ls with
    | nil => simp [joinTrail, joinNL]
    | cons l2 ls2 =>
      rw [joinTrail_cons, ih (by simp), joinNL_cons₂]
      simp

/-- Splitting a newline-free line yields that single segment. -/
theorem splitNL_no_nl {l : Str} (h : '\n' ∈ l → False) : splitNL l = [l] := by
  induction l with
  | nil => rfl
  | cons c cs ih =>
    have hc : c ≠ '\n' := fun hcc => h (by simp [hcc])
    simp only [splitNL]
    rw [if_neg hc, ih (fun hm => h (by simp [hm]))]

/-- Splitting undoes the newline join of newline-free lines. -/
theorem splitNL_joinNL {L : List Str} (hL : ∀ l ∈ L, '\n' ∈ l → False) (h : L ≠ []) :
    splitNL (joinNL L) = L := by
  induction L with
  | nil => exact absurd rfl h
  | cons l ls ih =>
    cases ls with
    | nil => exact splitNL_no_nl (hL l (List.mem_cons_self l []))
    | cons l2 ls2 =>
      rw [joinNL_cons₂, splitNL_append_nl (hL l (List.mem_cons_self l _)),
        ih (fun x hx => hL x (List.mem_cons_of_mem l hx)) (by simp)]

/-- The first character of an append with nonempty left part. -/
theorem firstNonWS_append {x : Str} (h : x ≠ []) (y : Str) :
    firstNonWS (x ++ y) = firstNonWS x := by
  cases x with
  | nil => exact absurd rfl h
  | cons c cs => rfl

/-- The last character of an append with nonempty right part. -/
theorem lastNonWS_append {y : Str} (h : y ≠ []) (x : Str) :
    lastNonWS (x ++ y) = lastNonWS y := by
  unfold lastNonWS
  rw [List.reverse_append]
  exact firstNonWS_append (by simp [h]) _

/-- The newline join of safe lines is nonempty when the list is. -/
theorem joinNL_ne_nil {L : List Str} (hL : ∀ l ∈ L, safeLine l) (h : L ≠ []) :
    joinNL L ≠ [] := by
  cases L with
  | nil => exact absurd rfl h
  | cons l ls =>
    have hl := safeLine_ne_nil (hL l (List.mem_cons_self l ls))
    cases ls with
    | nil => exact hl
    | cons l2 ls2 =>
      rw [joinNL_cons₂]
      simp [hl]

/-- The newline join of safe lines starts with a non-whitespace character. -/
theorem firstNonWS_joinNL {L : List Str} (hL : ∀ l ∈ L, safeLine l) (h : L ≠ []) :
    firstNonWS (joinNL L) = true := by
  cases L with
  | nil => exact absurd rfl h
  | cons l ls =>
    have hl := hL l (List.mem_cons_self l ls)
    cases ls with
    | nil => exact hl.1
    | cons l2 ls2 =>
      rw [joinNL_cons₂, firstNonWS_append (safeLine_ne_nil hl)]
      exact hl.1

/-- The newline join of safe lines ends with a non-whitespace character. -/
theorem lastNonWS_joinNL {L : List Str} (hL : ∀ l ∈ L, safeLine l) (h : L ≠ []) :
    lastNonWS (joinNL L) = true := by
  induction L with
  | nil => exact absurd rfl h
  | cons l ls ih =>
    have hl := hL l (List.mem_cons_self l ls)
    cases ls with
    | nil => exact hl.2.1
    | cons l2 ls2 =>
      have hrest : joinNL (l2 :: ls2) ≠ [] :=
        joinNL_ne_nil (fun x hx => hL x (List.mem_cons_of_mem l hx)) (by simp)
      rw [joinNL_cons₂, lastNonWS_append (by simp), show ('\n' :: joinNL (l2 :: ls2)) =
        ['\n'] ++ joinNL (l2 :: ls2) from rfl, lastNonWS_append hrest]
      exact ih (fun x hx => hL x (List.mem_cons_of_mem l hx)) (by simp)

/-- Trimming the accumulated form of safe lines yields the joined form. -/
theorem trimL_joinTrail {L : List Str} (hL : ∀ l ∈ L, safeLine l) :
    trimL (joinTrail L) = joinNL L := by
  cases hLe : L with
  | nil => rfl
  | cons l ls =>
    rw [← hLe, joinTrail_eq_joinNL (by rw [hLe]; simp),
      trimL_append_ws (by decide)]
    exact trimL_eq_self (firstNonWS_joinNL hL (by rw [hLe]; simp))
      (lastNonWS_joinNL hL (by rw [hLe]; simp))

/-- A safe line followed by a newline contributes itself to the line stream. -/
theorem parseLines_safe_cons {l : Str} (h : safeLine l) (rest : Str) :
    parseLines (l ++ '\n' :: rest) = l :: parseLines rest := by
  unfold parseLines
  rw [splitNL_append_nl h.2.2.1]
  simp only [List.map_cons, safeLine_trimL h, List.filter_cons]
  rw [if_pos (by simp [List.isEmpty_iff, safeLine_ne_nil h])]

/-- The accumulated form of safe lines contributes exactly those lines. -/
theorem parseLines_joinTrail {L : List Str} (hL : ∀ l ∈ L, safeLine l) (r : Str) :
    parseLines (joinTrail L ++ r) = L ++ parseLines r := by
  induction L with
  | nil => simp [joinTrail]
  | cons l ls ih =>
    rw [joinTrail_cons, List.append_assoc, List.cons_append,
      parseLines_safe_cons (hL l (List.mem_cons_self l ls)),
      ih (fun x hx => hL x (List.mem_cons_of_mem l hx))]
    rfl

/-- A leading blank line is dropped from the line stream. -/
theorem parseLines_nl_cons (r : Str) : parseLines ('\n' :: r) = parseLines r :=
  parseLines_cons_ws (by decide) r

/-- The empty text has no lines. -/
theorem parseLines_nil : parseLines [] = [] := rfl

/-- A trimmed, nonempty, newline-free line followed by a newline contributes
itself to the line stream. -/
theorem parseLines_line_cons {l : Str} (hnl : '\n' ∈ l → False) (ht : trimL l = l)
    (hne : l ≠ []) (rest : Str) :
    parseLines (l ++ '\n' :: rest) = l :: parseLines rest := by
  unfold parseLines
  rw [splitNL_append_nl hnl]
  simp only [List.map_cons, ht, List.filter_cons]
  rw [if_pos (by simp [List.isEmpty_iff, hne])]

/-- The header field of the reconstruction, in block normal form. -/
theorem field_hdr_eq {H : List Str} (hH : ∀ l ∈ H, safeLine l) :
    (if trimL (joinTrail H) ≠ [] then trimL (joinTrail H) ++ str "\n\n" else []) =
      hdrBlock H := by
  rw [trimL_joinTrail hH]
  unfold hdrBlock
  by_cases h : H = []
  · subst h
    simp [joinNL]
  · rw [if_pos (joinNL_ne_nil hH h), if_neg h]

/-- A labelled section field of the reconstruction, in block normal form. -/
theorem field_sec_eq (labelN label : Str) (hN : labelN = label ++ ['\n'])
    {S : List Str} (hS : ∀ l ∈ S, safeLine l) :
    (if trimL (joinTrail S) ≠ [] then labelN ++ trimL (joinTrail S) ++ str "\n\n" else []) =
      secBlock label S := by
  subst hN
  rw [trimL_joinTrail hS]
  unfold secBlock
  by_cases h : S = []
  · subst h
    simp [joinNL]
  · rw [if_pos (joinNL_ne_nil hS h), if_neg h]

/-- The skills field of the reconstruction: for safe (bullet-free) lines the
second-pass filter keeps every line, giving block normal form. -/
theorem field_skills_eq {Sk : List Str} (hS : ∀ l ∈ Sk, safeLine l) :
    (if trimL (joinTrail Sk) ≠ [] then
      str "TECHNICAL SKILLS\n" ++
        joinNL ((splitNL (trimL (joinTrail Sk))).filter keepSkillLine) ++ str "\n\n"
     else []) = secBlock (str "TECHNICAL SKILLS") Sk := by
  rw [trimL_joinTrail hS]
  by_cases h : Sk = []
  · subst h
    simp [joinNL, secBlock]
  · rw [if_pos (joinNL_ne_nil hS h)]
    rw [splitNL_joinNL (fun l hl => (hS l hl).2.2.1) h]
    have hfil : Sk.filter keepSkillLine = Sk := by
      rw [List.filter_eq_self]
      intro a ha
      have hb := (hS a ha).2.2.2.1
      simp [keepSkillLine, hb]
    rw [hfil]
    unfold secBlock
    rw [if_neg h]
    rw [show str "TECHNICAL SKILLS\n" = str "TECHNICAL SKILLS" ++ ['\n'] by decide]

/-- The additional field of the reconstruction, in block normal form. -/
theorem field_last_eq (labelN label : Str) (hN : labelN = label ++ ['\n'])
    {A : List Str} (hA : ∀ l ∈ A, safeLine l) :
    (if trimL (joinTrail A) ≠ [] then labelN ++ trimL (joinTrail A) ++ str "\n" else []) =
      lastBlock label A := by
  subst hN
  rw [trimL_joinTrail hA]
  unfold lastBlock
  by_cases h : A = []
  · subst h
    simp [joinNL]
  · rw [if_pos (joinNL_ne_nil hA h), if_neg h]

/-- Reconstruction of packed line lists, in block normal form. -/
theorem reconstruct_fromLines (H Su Sk Ex Ed P C A : List Str)
    (hH : ∀ l ∈ H, safeLine l) (hSu : ∀ l ∈ Su, safeLine l)
    (hSk : ∀ l ∈ Sk, safeLine l) (hEx : ∀ l ∈ Ex, safeLine l)
    (hEd : ∀ l ∈ Ed, safeLine l) (hP : ∀ l ∈ P, safeLine l)
    (hC : ∀ l ∈ C, safeLine l) (hA : ∀ l ∈ A, safeLine l) :
    reconstructResume (fromLines H Su Sk Ex Ed P C A) =
      trimL (hdrBlock H ++ secBlock (str "PROFESSIONAL SUMMARY") Su ++
        secBlock (str "TECHNICAL SKILLS") Sk ++
        secBlock (str "PROFESSIONAL EXPERIENCE") Ex ++
        secBlock (str "EDUCATION") Ed ++ secBlock (str "PROJECTS") P ++
        secBlock (str "CERTIFICATIONS") C ++
        lastBlock (str "ADDITIONAL INFORMATION") A) := by
  dsimp only [reconstructResume, fromLines]
  rw [field_hdr_eq hH,
    field_sec_eq (str "PROFESSIONAL SUMMARY\n") (str "PROFESSIONAL SUMMARY") (by decide) hSu,
    field_skills_eq hSk,
    field_sec_eq (str "PROFESSIONAL EXPERIENCE\n") (str "PROFESSIONAL EXPERIENCE") (by decide) hEx,
    field_sec_eq (str "EDUCATION\n") (str "EDUCATION") (by decide) hEd,
    field_sec_eq (str "PROJECTS\n") (str "PROJECTS") (by decide) hP,
    field_sec_eq (str "CERTIFICATIONS\n") (str "CERTIFICATIONS") (by decide) hC,
    field_last_eq (str "ADDITIONAL INFORMATION\n") (str "ADDITIONAL INFORMATION") (by decide) hA]

/-- The header block contributes its lines to the line stream. -/
theorem parseLines_hdrBlock {H : List Str} (hH : ∀ l ∈ H, safeLine l) (r : Str) :
    parseLines (hdrBlock H ++ r) = H ++ parseLines r := by
  unfold hdrBlock
  by_cases h : H = []
  · subst h
    simp
  · rw [if_neg h]
    have e1 : (joinNL H ++ str "\n\n") ++ r = joinTrail H ++ ('\n' :: r) := by
      rw [joinTrail_eq_joinNL h]
      simp [str]
    rw [e1, parseLines_joinTrail hH, parseLines_nl_cons]

/-- A labelled section block contributes its label and lines. -/
theorem parseLines_secBlock {label : Str}
    (hlab : ('\n' ∈ label → False) ∧ trimL label = label ∧ label ≠ [])
    {S : List Str} (hS : ∀ l ∈ S, safeLine l) (r : Str) :
    parseLines (secBlock label S ++ r) = optBlock label S ++ parseLines r := by
  unfold secBlock optBlock
  by_cases h : S = []
  · subst h
    simp
  · rw [if_neg h, if_neg h]
    have e1 : ((label ++ ['\n']) ++ joinNL S ++ str "\n\n") ++ r =
        label ++ '\n' :: (joinTrail S ++ ('\n' :: r)) := by
      rw [joinTrail_eq_joinNL h]
      simp [str]
    rw [e1, parseLines_line_cons hlab.1 hlab.2.1 hlab.2.2, parseLines_joinTrail hS,
      parseLines_nl_cons]
    rfl

/-- The additional block contributes its label and lines. -/
theorem parseLines_lastBlock {label : Str}
    (hlab : ('\n' ∈ label → False) ∧ trimL label = label ∧ label ≠ [])
    {A : List Str} (hA : ∀ l ∈ A, safeLine l) (r : Str) :
    parseLines (lastBlock label A ++ r) = optBlock label A ++ parseLines r := by
  unfold lastBlock optBlock
  by_cases h : A = []
  · subst h
    simp
  · rw [if_neg h, if_neg h]
    have e1 : ((label ++ ['\n']) ++ joinNL A ++ str "\n") ++ r =
        label ++ '\n' :: (joinTrail A ++ r) := by
      rw [joinTrail_eq_joinNL h]
      simp [str]
    rw [e1, parseLines_line_cons hlab.1 hlab.2.1 hlab.2.2, parseLines_joinTrail hA]
    rfl

/-- The full line stream of a reconstructed resume: header lines, then each
populated section's label-plus-content block, in order. -/
theorem parseLines_reconstruct (H Su Sk Ex Ed P C A : List Str)
    (hH : ∀ l ∈ H, safeLine l) (hSu : ∀ l ∈ Su, safeLine l)
    (hSk : ∀ l ∈ Sk, safeLine l) (hEx : ∀ l ∈ Ex, safeLine l)
    (hEd : ∀ l ∈ Ed, safeLine l) (hP : ∀ l ∈ P, safeLine l)
    (hC : ∀ l ∈ C, safeLine l) (hA : ∀ l ∈ A, safeLine l) :
    parseLines (reconstructResume (fromLines H Su Sk Ex Ed P C A)) =
      H ++ (optBlock (str "PROFESSIONAL SUMMARY") Su ++
        (optBlock (str "TECHNICAL SKILLS") Sk ++
        (optBlock (str "PROFESSIONAL EXPERIENCE") Ex ++
        (optBlock (str "EDUCATION") Ed ++ (optBlock (str "PROJECTS") P ++
        (optBlock (str "CERTIFICATIONS") C ++
        optBlock (str "ADDITIONAL INFORMATION") A)))))) := by
  rw [reconstruct_fromLines H Su Sk Ex Ed P C A hH hSu hSk hEx hEd hP hC hA,
    parseLines_trimL]
  simp only [List.append_assoc]
  rw [parseLines_hdrBlock hH, parseLines_secBlock (by refine ⟨?_, ?_, ?_⟩ <;> decide) hSu,
    parseLines_secBlock (by refine ⟨?_, ?_, ?_⟩ <;> decide) hSk,
    parseLines_secBlock (by refine ⟨?_, ?_, ?_⟩ <;> decide) hEx,
    parseLines_secBlock (by refine ⟨?_, ?_, ?_⟩ <;> decide) hEd,
    parseLines_secBlock (by refine ⟨?_, ?_, ?_⟩ <;> decide) hP,
    parseLines_secBlock (by refine ⟨?_, ?_, ?_⟩ <;> decide) hC]
  rw [← List.append_nil (lastBlock (str "ADDITIONAL INFORMATION") A),
    parseLines_lastBlock (by refine ⟨?_, ?_, ?_⟩ <;> decide) hA, parseLines_nil,
    List.append_nil]

/-! ## C8 groundwork: the parser fold -/

/-- Appending a line writes through `set`. -/
theorem app_eq_set (s : ResumeSection) (k : SecKey) (l : Str) :
    s.app k l = s.set k (s.get k ++ l ++ ['\n']) := by
  cases k <;> rfl

/-- Reading the field just written. -/
theorem get_set_same (s : ResumeSection) (k : SecKey) (v : Str) :
    (s.set k v).get k = v := by
  cases k <;> rfl

/-- Writing a field twice keeps the second value. -/
theorem set_set_same (s : ResumeSection) (k : SecKey) (u v : Str) :
    (s.set k u).set k v = s.set k v := by
  cases k <;> rfl

/-- Appending a list of lines writes the accumulated form through `set`. -/
theorem appendAll_eq_set (k : SecKey) (L : List Str) : ∀ s : ResumeSection,
    appendAll s k L = s.set k (s.get k ++ joinTrail L) := by
  induction L with
  | nil =>
    intro s
    show s = _
    rw [show joinTrail [] = [] from rfl, List.append_nil]
    cases s
    cases k <;> rfl
  | cons l L ih =>
    intro s
    show appendAll (s.app k l) k L = _
    rw [ih, app_eq_set, get_set_same, set_set_same, joinTrail_cons]
    congr 1
    simp

/-- Safe lines trip none of the section-title detectors. -/
theorem lineTrigger_none_of_safe {l : Str} (h : safeLine l) : lineTrigger l = none := by
  obtain ⟨-, -, -, -, h1, h2, h3, h4, h5, h6, h7, h8, h9, h10, h11, h12⟩ := h
  simp [lineTrigger, h1, h2, h3, h4, h5, h6, h7, h8, h9, h10, h11, h12]

/-- Non-bullet lines trip neither bullet redirection. -/
theorem bullet_tests_false {l : Str} (hb : startsWithL (str "•") l = false) :
    softSkillBullet l = false ∧ skillsRedirect l = false := by
  constructor <;> simp [softSkillBullet, skillsRedirect, hb]

/-- The step on a line that matches a section title. -/
theorem parseStep_some {l : Str} {k : SecKey} (hl : lineTrigger l = some k) (st : PState) :
    parseStep st l = { st with cur := k } := by
  unfold parseStep
  rw [hl]

/-- The step on a line that matches no section title. -/
theorem parseStep_none {l : Str} (hl : lineTrigger l = none) (st : PState) :
    parseStep st l =
      (if st.cur = SecKey.header ∧ st.hc = false then
        if hasContactMarker l then { st with secs := st.secs.app .header l }
        else if st.secs.header ≠ [] ∧
            ¬containsSub (str "developer") (lowerStr l) = true ∧
            ¬containsSub (str "engineer") (lowerStr l) = true then
          afterHeader { st with hc := true, cur := .summary } l
        else afterHeader st l
      else afterHeader st l) := by
  unfold parseStep
  rw [hl]

/-- A safe line processed outside the header phase is appended to the
current section. -/
theorem parseStep_safe {l : Str} (h : safeLine l) (k : SecKey) (hk : k ≠ SecKey.header)
    (hc : Bool) (secs : ResumeSection) :
    parseStep ⟨k, hc, secs⟩ l = ⟨k, hc, secs.app k l⟩ := by
  rw [parseStep_none (lineTrigger_none_of_safe h)]
  rw [if_neg (by simp [hk])]
  unfold afterHeader
  obtain ⟨hb1, hb2⟩ := bullet_tests_false h.2.2.2.1
  rw [if_neg (by simp [hb1]), if_neg (by simp [hb2])]

/-- Folding safe content lines appends them all to the current section. -/
theorem foldl_content (S : List Str) : ∀ (k : SecKey) (hc : Bool) (secs : ResumeSection),
    k ≠ SecKey.header → (∀ l ∈ S, safeLine l) →
    List.foldl parseStep ⟨k, hc, secs⟩ S = ⟨k, hc, appendAll secs k S⟩ := by
  induction S with
  | nil =>
    intro k hc secs hk hS
    rfl
  | cons l S ih =>
    intro k hc secs hk hS
    rw [List.foldl_cons, parseStep_safe (hS l (List.mem_cons_self l S)) k hk,
      ih k hc _ hk (fun x hx => hS x (List.mem_cons_of_mem l hx))]
    rfl

/-- Folding an optional section block: the label (if present) switches the
cursor, and the content lines land in that section. -/
theorem foldl_optBlock {label : Str} (k : SecKey) (hlab : lineTrigger label = some k)
    (hk : k ≠ SecKey.header) {S : List Str} (hS : ∀ l ∈ S, safeLine l) (st : PState) :
    List.foldl parseStep st (optBlock label S) =
      ⟨if S = [] then st.cur else k, st.hc, appendAll st.secs k S⟩ := by
  by_cases h : S = []
  · subst h
    show List.foldl parseStep st [] = _
    cases st
    rfl
  · show List.foldl parseStep st (if S = [] then [] else label :: S) = _
    rw [if_neg h, List.foldl_cons, parseStep_some hlab]
    rw [if_neg h]
    exact foldl_content S k st.hc st.secs hk hS

/-- The step on a safe header-phase line with a contact marker. -/
theorem parseStep_header_marker {l : Str} (h : safeLine l) (hm : hasContactMarker l = true)
    (secs : ResumeSection) :
    parseStep ⟨SecKey.header, false, secs⟩ l = ⟨SecKey.header, false, secs.app .header l⟩ := by
  rw [parseStep_none (lineTrigger_none_of_safe h)]
  rw [if_pos ⟨rfl, rfl⟩, if_pos hm]

/-- The step on a safe first header line (header still empty). -/
theorem parseStep_header_empty {l : Str} (h : safeLine l) (secs : ResumeSection)
    (hh : secs.header = []) :
    parseStep ⟨SecKey.header, false, secs⟩ l = ⟨SecKey.header, false, secs.app .header l⟩ := by
  rw [parseStep_none (lineTrigger_none_of_safe h)]
  rw [if_pos ⟨rfl, rfl⟩]
  by_cases hm : hasContactMarker l = true
  · rw [if_pos hm]
  · rw [if_neg hm, if_neg (by simp [hh])]
    unfold afterHeader
    obtain ⟨hb1, hb2⟩ := bullet_tests_false h.2.2.2.1
    rw [if_neg (by simp [hb1]), if_neg (by simp [hb2])]

/-- Folding safe marker lines accumulates them in the header. -/
theorem foldl_header_tail (T : List Str) : ∀ secs : ResumeSection,
    (∀ l ∈ T, safeLine l ∧ hasContactMarker l = true) →
    List.foldl parseStep ⟨SecKey.header, false, secs⟩ T =
      ⟨SecKey.header, false, appendAll secs .header T⟩ := by
  induction T with
  | nil =>
    intro secs h
    rfl
  | cons l T ih =>
    intro secs h
    have hl := h l (List.mem_cons_self l T)
    rw [List.foldl_cons, parseStep_header_marker hl.1 hl.2,
      ih _ (fun x hx => h x (List.mem_cons_of_mem l hx))]
    rfl

/-- Folding the header lines of a reconstructed resume accumulates them all
in the header section. -/
theorem foldl_header (H : List Str) (hH : ∀ l ∈ H, safeLine l)
    (hm : ∀ l ∈ H.tail, hasContactMarker l = true) :
    List.foldl parseStep ⟨SecKey.header, false, emptySections⟩ H =
      ⟨SecKey.header, false, appendAll emptySections .header H⟩ := by
  cases H with
  | nil => rfl
  | cons h0 t =>
    rw [List.foldl_cons, parseStep_header_empty (hH h0 (List.mem_cons_self h0 t)) _ rfl,
      foldl_header_tail t _ (fun x hx => ⟨hH x (List.mem_cons_of_mem h0 hx), hm x hx⟩)]
    rfl

/-- Sectioning a reconstructed resume recovers exactly the packed sections. -/
theorem parse_reconstruct_sections (H Su Sk Ex Ed P C A : List Str)
    (hH : ∀ l ∈ H, safeLine l) (hHm : ∀ l ∈ H.tail, hasContactMarker l = true)
    (hSu : ∀ l ∈ Su, safeLine l) (hSk : ∀ l ∈ Sk, safeLine l)
    (hEx : ∀ l ∈ Ex, safeLine l) (hEd : ∀ l ∈ Ed, safeLine l)
    (hP : ∀ l ∈ P, safeLine l) (hC : ∀ l ∈ C, safeLine l)
    (hA : ∀ l ∈ A, safeLine l) :
    parseResumeIntoSections (reconstructResume (fromLines H Su Sk Ex Ed P C A)) =
      fromLines H Su Sk Ex Ed P C A := by
  unfold parseResumeIntoSections
  rw [parseLines_reconstruct H Su Sk Ex Ed P C A hH hSu hSk hEx hEd hP hC hA]
  rw [List.foldl_append, foldl_header H hH hHm,
    List.foldl_append, foldl_optBlock SecKey.summary (by decide) (by decide) hSu,
    List.foldl_append, foldl_optBlock SecKey.skills (by decide) (by decide) hSk,
    List.foldl_append, foldl_optBlock SecKey.experience (by decide) (by decide) hEx,
    List.foldl_append, foldl_optBlock SecKey.education (by decide) (by decide) hEd,
    List.foldl_append, foldl_optBlock SecKey.projects (by decide) (by decide) hP,
    List.foldl_append, foldl_optBlock SecKey.certifications (by decide) (by decide) hC,
    foldl_optBlock SecKey.additional (by decide) (by decide) hA]
  simp only [appendAll_eq_set]
  rfl

/-! ## C8: sectioning / reconstruction round trip (corrected) -/

set_option maxRecDepth 40000 in
/-- Counterexample to C8 as stated: `lossyResume` contains the exact
uppercase reconstructor label "PROFESSIONAL EXPERIENCE", yet its content line
contains the word "education", so the parser consumes it as a section switch:
the round trip returns the empty string, losing the content entirely rather
than preserving order and content up to whitespace. -/
theorem roundtrip_counterexample :
    containsSub (str "PROFESSIONAL EXPERIENCE") lossyResume = true ∧
    reconstructResume (parseResumeIntoSections lossyResume) = [] ∧
    lossyResume ≠ [] := by
  refine ⟨?_, ?_, ?_⟩ <;> decide

/-- C8 (amended): for every resume produced by the reconstructor from
sections whose lines are safe — non-whitespace-delimited, newline-free, not
bullet lines, and free (case-insensitively) of the parser's section-trigger
substrings — and whose header lines after the first carry a contact marker,
sectioning recovers exactly the same sections, and reconstructing after
sectioning reproduces the reconstructed resume verbatim (same section order
and content). -/
theorem roundtrip_spec (H Su Sk Ex Ed P C A : List Str)
    (hH : ∀ l ∈ H, safeLine l) (hHm : ∀ l ∈ H.tail, hasContactMarker l = true)
    (hSu : ∀ l ∈ Su, safeLine l) (hSk : ∀ l ∈ Sk, safeLine l)
    (hEx : ∀ l ∈ Ex, safeLine l) (hEd : ∀ l ∈ Ed, safeLine l)
    (hP : ∀ l ∈ P, safeLine l) (hC : ∀ l ∈ C, safeLine l)
    (hA : ∀ l ∈ A, safeLine l) :
    parseResumeIntoSections (reconstructResume (fromLines H Su Sk Ex Ed P C A)) =
      fromLines H Su Sk Ex Ed P C A ∧
    reconstructResume (parseResumeIntoSections
        (reconstructResume (fromLines H Su Sk Ex Ed P C A))) =
      reconstructResume (fromLines H Su Sk Ex Ed P C A) := by
  have h1 := parse_reconstruct_sections H Su Sk Ex Ed P C A hH hHm hSu hSk hEx hEd hP hC hA
  exact ⟨h1, by rw [h1]⟩

set_option maxRecDepth 40000 in
set_option maxHeartbeats 1000000 in
/-- Witness for the amended C8 on a concrete safe resume. -/
theorem roundtrip_spec_witness :
    reconstructResume (parseResumeIntoSections
        (reconstructResume (fromLines
          [str "John Doe", str "john@example.com"]
          [str "Keen builder of dynamic web apps"]
          [str "JavaScript, Bootstrap"]
          [str "Built many apps"] [] [] [] []))) =
      reconstructResume (fromLines
        [str "John Doe", str "john@example.com"]
        [str "Keen builder of dynamic web apps"]
        [str "JavaScript, Bootstrap"]
        [str "Built many apps"] [] [] [] []) :=
  (roundtrip_spec
    [str "John Doe", str "john@example.com"]
    [str "Keen builder of dynamic web apps"]
    [str "JavaScript, Bootstrap"]
    [str "Built many apps"] [] [] [] []
    (by decide) (by decide) (by decide) (by decide) (by decide) (by decide)
    (by decide) (by decide) (by decide)).2
